import Mathlib

/-!
Verification of the `mirror-sync` CLI (`src/mirror_sync/cli.py`).

The Python source is shallowly embedded: Python dicts become association
lists, `pathlib.Path` values become lists of path components, file trees
become lists of file paths (with contents where hashing matters), and the
`while` loop of `findup` becomes a fuel-indexed recursion whose termination
on absolute paths is proved.  External library behaviour that the source
relies on (DeepDiff on flat string dicts, `hashlib.md5`,
`tempfile.TemporaryDirectory`) is modelled where it is needed by a claim.
-/

/-- Association-list lookup, the embedding of Python `dict` access
(`d.get(k)` / `d[k]`).  Keys of a Python dict are unique, so first-match
lookup agrees with dict semantics. -/
def alookup {α β : Type} [DecidableEq α] (k : α) : List (α × β) → Option β
  | [] => none
  | (k2, v) :: rest => if k = k2 then some v else alookup k rest

/-- The keys of an embedded dict, in insertion order (`d.keys()`). -/
def dkeys {α β : Type} (m : List (α × β)) : List α := m.map Prod.fst

/-- A file-hash state as built by `get_file_hashes`: relative POSIX path →
hex digest. -/
abbrev HashDict := List (String × String)

/-! ### Diff classification (`show_diff`, lines 134-151)

`show_diff` runs `DeepDiff(state1, state2)` on two flat `str → str` dicts.
For such inputs DeepDiff produces exactly three groups, modelled here:
`dictionary_item_added` (keys of `state2` absent from `state1`),
`dictionary_item_removed` (keys of `state1` absent from `state2`) and
`values_changed` (keys present in both with different values); the diff is
falsy exactly when all three are empty. -/

/-- Keys present in `t2` but not in `t1` (DeepDiff `dictionary_item_added`). -/
def dictionary_item_added (t1 t2 : HashDict) : List String :=
  (dkeys t2).filter (fun k => (alookup k t1).isNone)

/-- Keys present in `t1` but not in `t2` (DeepDiff `dictionary_item_removed`). -/
def dictionary_item_removed (t1 t2 : HashDict) : List String :=
  (dkeys t1).filter (fun k => (alookup k t2).isNone)

/-- Keys present in both dicts whose values differ (DeepDiff `values_changed`). -/
def values_changed (t1 t2 : HashDict) : List String :=
  (dkeys t1).filter (fun k =>
    match alookup k t1, alookup k t2 with
    | some v, some w => v != w
    | _, _ => false)

/-- `if not diff:` in `show_diff`: the DeepDiff result is falsy iff all three
groups are empty. -/
def diff_is_clean (t1 t2 : HashDict) : Bool :=
  (dictionary_item_added t1 t2).isEmpty
    && (dictionary_item_removed t1 t2).isEmpty
    && (values_changed t1 t2).isEmpty

/-- One line printed by `show_diff`. -/
inductive OutLine
  | clean
  | added (ks : List String)
  | removed (ks : List String)
  | changed (ks : List String)
deriving DecidableEq

/-- `show_diff` (lines 134-151 and 188), projected to what it prints and the
argument of `sys.exit`: prints `Clean!` and returns normally (`none`) on an
empty diff, otherwise prints each non-empty group and calls `sys.exit 1`
(`some 1`).  The per-file unified-diff rendering between the group printing
and the exit does not change either component. -/
def show_diff (state1 state2 : HashDict) : List OutLine × Option Nat :=
  if diff_is_clean state1 state2 then ([.clean], none)
  else
    ((if (dictionary_item_added state1 state2).isEmpty then []
      else [OutLine.added (dictionary_item_added state1 state2)]) ++
     (if (dictionary_item_removed state1 state2).isEmpty then []
      else [OutLine.removed (dictionary_item_removed state1 state2)]) ++
     (if (values_changed state1 state2).isEmpty then []
      else [OutLine.changed (values_changed state1 state2)]),
     some 1)

/-- Process exit code of a `diff --copy` run that reached `show_diff`:
`sys.exit`'s argument when called, else the interpreter's normal exit 0
(`main` just returns after the `elif` chain). -/
def diff_process_exit (state1 state2 : HashDict) : Nat :=
  ((show_diff state1 state2).2).getD 0

theorem alookup_isSome {β : Type} (k : String) (m : List (String × β)) :
    (alookup k m).isSome = true ↔ k ∈ dkeys m := by
  induction m with
  | nil => simp [alookup, dkeys]
  | cons kv rest ih =>
    obtain ⟨k2, v⟩ := kv
    by_cases h : k = k2
    · simp [alookup, dkeys, h]
    · simpa [alookup, dkeys, h] using ih

theorem alookup_isNone {β : Type} (k : String) (m : List (String × β)) :
    (alookup k m).isNone = true ↔ k ∉ dkeys m := by
  rw [← alookup_isSome k m]
  cases alookup k m <;> simp

/-! ### Configuration merge (`Config.update`, lines 64-68)

The dataclass instance's `__dict__` is embedded as an association list from
field name to a dynamically typed Python value; `update` iterates the fixed
tuple of dataclass fields, skips a field when `in_dict.get(key)` is falsy
(absent, `None`, `False`, empty string/list/dict), and otherwise overwrites
the field with the dict's value. -/

/-- A Python value of the shapes stored in `Config` fields or passed in via
`vars(args)` / the parsed YAML document. -/
inductive PyVal
  | none
  | bool (b : Bool)
  | str (s : String)
  | strlist (l : List String)
  | strdict (d : List (String × String))
deriving DecidableEq

/-- Python truthiness for the embedded values (`not v` negates this). -/
def PyVal.truthy : PyVal → Bool
  | .none => false
  | .bool b => b
  | .str s => !s.isEmpty
  | .strlist l => !l.isEmpty
  | .strdict d => !d.isEmpty

/-- The tuple `Config.__dataclass_fields__` iterated by `update`. -/
def config_fields : List String :=
  ["remotes", "files", "excludes", "includes", "mode",
   "dry_run", "mkdir", "delete", "delete_excluded"]

/-- The default `Config()` instance's `__dict__`. -/
def config_default : List (String × PyVal) :=
  [("remotes", .strdict []), ("files", .strlist []), ("excludes", .strlist []),
   ("includes", .strlist []), ("mode", .str ""), ("dry_run", .bool false),
   ("mkdir", .bool false), ("delete", .bool false), ("delete_excluded", .bool false)]

/-- `self.__dict__[key] = value` on an embedded instance dict: replaces the
value at an existing key, leaves everything else unchanged. -/
def setattr_dict (st : List (String × PyVal)) (k : String) (v : PyVal) :
    List (String × PyVal) :=
  st.map (fun kv => if kv.1 = k then (k, v) else kv)

/-- The body of `Config.update`'s loop: `if not in_dict.get(key): continue`
else `self.__dict__[key] = in_dict.get(key)`. -/
def update_step (in_dict st : List (String × PyVal)) (key : String) :
    List (String × PyVal) :=
  match alookup key in_dict with
  | some v => if v.truthy then setattr_dict st key v else st
  | Option.none => st

/-- `Config.update` (lines 64-68): for each dataclass field in order, skip
when `in_dict.get(key)` is falsy, else assign it to the instance dict. -/
def Config.update (self : List (String × PyVal)) (in_dict : List (String × PyVal)) :
    List (String × PyVal) :=
  config_fields.foldl (update_step in_dict) self

theorem alookup_setattr (k k2 : String) (v : PyVal) (st : List (String × PyVal)) :
    alookup k (setattr_dict st k2 v) =
      if k = k2 then (alookup k st).map (fun _ => v) else alookup k st := by
  induction st with
  | nil => simp [setattr_dict, alookup]
  | cons kv rest ih =>
    obtain ⟨k1, w⟩ := kv
    simp only [setattr_dict, List.map_cons] at *
    by_cases h12 : k1 = k2
    · rw [if_pos h12]
      subst h12
      by_cases hk : k = k1
      · subst hk
        simp [alookup]
      · simp [alookup, hk, ih]
    · rw [if_neg h12]
      by_cases hk : k = k1
      · subst hk
        simp [alookup, h12]
      · simp [alookup, hk, h12, ih]

/-- What one loop iteration of `Config.update` does to the value of field `k`,
expressed on the field's current value. -/
def cli_override (in_dict : List (String × PyVal)) (k : String)
    (cur : Option PyVal) : Option PyVal :=
  match alookup k in_dict with
  | some v => if v.truthy then cur.map (fun _ => v) else cur
  | Option.none => cur

theorem cli_override_idem (in_dict : List (String × PyVal)) (k : String)
    (cur : Option PyVal) :
    cli_override in_dict k (cli_override in_dict k cur) =
      cli_override in_dict k cur := by
  unfold cli_override
  cases alookup k in_dict with
  | none => rfl
  | some v =>
    by_cases ht : v.truthy
    · simp only [ht, if_true]
      cases cur <;> simp
    · simp [ht]

theorem alookup_update_step (in_dict st : List (String × PyVal)) (key k : String) :
    alookup k (update_step in_dict st key) =
      if k = key then cli_override in_dict k (alookup k st) else alookup k st := by
  unfold update_step cli_override
  by_cases hk : k = key
  · subst hk
    cases h : alookup k in_dict with
    | none => simp
    | some v =>
      by_cases ht : v.truthy
      · simp [ht, alookup_setattr]
      · simp [ht]
  · cases h : alookup key in_dict with
    | none => simp [hk]
    | some v =>
      by_cases ht : v.truthy
      · simp [ht, alookup_setattr, hk]
      · simp [ht, hk]

theorem alookup_foldl_update (in_dict : List (String × PyVal)) (l : List String) :
    ∀ (st : List (String × PyVal)) (k : String),
      alookup k (l.foldl (update_step in_dict) st) =
        if k ∈ l then cli_override in_dict k (alookup k st) else alookup k st := by
  induction l with
  | nil =>
    intro st k
    simp
  | cons a l ih =>
    intro st k
    simp only [List.foldl_cons]
    rw [ih]
    simp only [alookup_update_step]
    by_cases hk : k = a
    · subst hk
      by_cases hl : k ∈ l
      · simp [hl, cli_override_idem]
      · simp [hl]
    · by_cases hl : k ∈ l <;> simp [hl, hk]

/-! ### Config-root search (`findup`, lines 71-78)

An absolute directory is embedded as its list of path components
(`[] = '/'`, `["home","u"] = '/home/u'`); `Path.parent` is `List.dropLast`.
The filesystem is the list of paths of its regular files, each path being
the containing directory's components with the file's name appended, so the
`files = [p.name for p in path.glob('*') if p.is_file()]; name in files`
check inspects exactly the regular files directly inside one directory. -/

/-- Whether the directory `dir` directly contains a regular file called
`name` (the glob + `name in files` test of `findup`). -/
def dirHasFile (fs : List (List String)) (dir : List String) (name : String) : Bool :=
  fs.contains (dir ++ [name])

/-- The loop of `findup` with explicit fuel: `while str(path) != '/'` guards
first, then checks the directory, then moves to the parent.  Running out of
fuel returns `Option.none`, which by `findup_go_fuel_irrel` never happens for
the fuel chosen in `findup`. -/
def findup_go (name : String) (fs : List (List String)) :
    Nat → List String → Option (List String)
  | 0, _ => Option.none
  | fuel + 1, path =>
    if path = [] then Option.none
    else if dirHasFile fs path name then some path
    else findup_go name fs fuel path.dropLast

/-- `findup` (lines 71-78) on an absolute starting directory. -/
def findup (name : String) (fs : List (List String)) (path : List String) :
    Option (List String) :=
  findup_go name fs (path.length + 1) path

theorem findup_go_fuel_irrel (name : String) (fs : List (List String)) :
    ∀ (n m : Nat) (path : List String), path.length < n → path.length < m →
      findup_go name fs n path = findup_go name fs m path := by
  intro n
  induction n with
  | zero =>
    intro m path h _
    exact absurd h (Nat.not_lt_zero _)
  | succ n ih =>
    intro m path hn hm
    cases m with
    | zero => exact absurd hm (Nat.not_lt_zero _)
    | succ m =>
      by_cases hp : path = []
      · simp [findup_go, hp]
      · simp only [findup_go, if_neg hp]
        by_cases hh : dirHasFile fs path name = true
        · simp [hh]
        · simp only [hh, Bool.false_eq_true, if_false]
          have hlen : 0 < path.length := List.length_pos.mpr hp
          apply ih
          · rw [List.length_dropLast]
            omega
          · rw [List.length_dropLast]
            omega

theorem dropLast_take_eq (l : List String) (m : Nat) (h : m ≤ l.length - 1) :
    l.dropLast.take m = l.take m := by
  rw [List.dropLast_eq_take, List.take_take]
  congr 1
  omega

/-- Full characterization of the fueled loop: a `some` result is the longest
non-root ancestor prefix (given as `start.take k`) containing `name`, and a
`none` result means no non-root ancestor prefix contains it. -/
theorem findup_go_spec (name : String) (fs : List (List String)) :
    ∀ (n : Nat) (start : List String), start.length < n →
      (∀ p, findup_go name fs n start = some p →
        (∃ k, 0 < k ∧ k ≤ start.length ∧ p = start.take k) ∧
        dirHasFile fs p name = true ∧
        (∀ m, p.length < m → m ≤ start.length →
          dirHasFile fs (start.take m) name = false)) ∧
      (findup_go name fs n start = Option.none →
        ∀ m, 0 < m → m ≤ start.length →
          dirHasFile fs (start.take m) name = false) := by
  intro n
  induction n with
  | zero =>
    intro start h
    exact absurd h (Nat.not_lt_zero _)
  | succ n ih =>
    intro start hn
    by_cases hp : start = []
    · subst hp
      refine ⟨fun p hps => by simp [findup_go] at hps, fun _ m hm0 hmlen => ?_⟩
      simp at hmlen
      omega
    · have hlen : 0 < start.length := List.length_pos.mpr hp
      by_cases hh : dirHasFile fs start name = true
      · refine ⟨fun p hps => ?_, fun hnone => ?_⟩
        · have hps' : some start = some p := by
            simpa [findup_go, hp, hh] using hps
          obtain rfl : start = p := by injection hps'
          refine ⟨⟨start.length, hlen, le_refl _, by simp⟩, hh, ?_⟩
          intro m hm1 hm2
          omega
        · simp [findup_go, hp, hh] at hnone
      · have hstep : findup_go name fs (n + 1) start =
            findup_go name fs n start.dropLast := by
          simp [findup_go, hp, hh]
        have hdl : start.dropLast.length < n := by
          rw [List.length_dropLast]
          omega
        have ihd := ih start.dropLast hdl
        have htake : ∀ m, m ≤ start.length - 1 →
            start.dropLast.take m = start.take m :=
          fun m hm => dropLast_take_eq start m hm
        have hself : start.take start.length = start := by simp
        refine ⟨fun p hps => ?_, fun hnone => ?_⟩
        · rw [hstep] at hps
          obtain ⟨⟨k, hk0, hklen, hkp⟩, hhasp, hmax⟩ := ihd.1 p hps
          rw [List.length_dropLast] at hklen
          refine ⟨⟨k, hk0, by omega, by rw [hkp, htake k hklen]⟩, hhasp, ?_⟩
          intro m hm1 hm2
          by_cases hmtop : m = start.length
          · subst hmtop
            rw [hself]
            exact Bool.eq_false_iff.mpr hh
          · have hm2' : m ≤ start.length - 1 := by omega
            rw [← htake m hm2']
            apply hmax m hm1
            rw [List.length_dropLast]
            omega
        · rw [hstep] at hnone
          intro m hm0 hm2
          by_cases hmtop : m = start.length
          · subst hmtop
            rw [hself]
            exact Bool.eq_false_iff.mpr hh
          · have hm2' : m ≤ start.length - 1 := by omega
            rw [← htake m hm2']
            apply ihd.2 hnone m hm0
            rw [List.length_dropLast]
            omega

/-! ### Termination of the `findup` loop (claim about lines 71-78)

`pathlib` paths are either absolute or relative; `Path.parent` drops the
last component and fixes the anchor (`Path('/').parent == Path('/')`,
`Path('.').parent == Path('.')`, `Path('a').parent == Path('.')`).  The
loop guard compares `str(path)` against `'/'`, which holds exactly for the
absolute root.  `findupFuel` is the loop with a step budget: a `none`
result means the budget was exhausted without the loop finishing. -/

/-- A `pathlib.Path` value: absolute (`[] = '/'`) or relative (`[] = '.'`). -/
inductive PyPath
  | abs (comps : List String)
  | rel (comps : List String)
deriving DecidableEq

/-- `Path.parent`. -/
def PyPath.parent : PyPath → PyPath
  | .abs cs => .abs cs.dropLast
  | .rel cs => .rel cs.dropLast

/-- The loop guard `str(path) != '/'`, negated: true exactly for `Path('/')`
(a relative path's string is never `'/'`). -/
def PyPath.str_is_root : PyPath → Bool
  | .abs [] => true
  | _ => false

/-- The `name in files` check of the loop, on either kind of path; on an
absolute path it is `dirHasFile` against the embedded filesystem. -/
def pyHas (fs : List (List String)) : PyPath → String → Bool
  | .abs cs, name => dirHasFile fs cs name
  | .rel _, _ => false

/-- The `findup` loop with a fuel budget: `some r` means the loop finished
with result `r` within the budget, `none` means the budget ran out. -/
def findupFuel (has : PyPath → String → Bool) (name : String) :
    Nat → PyPath → Option (Option PyPath)
  | 0, _ => Option.none
  | fuel + 1, p =>
    if p.str_is_root then some Option.none
    else if has p name then some (some p)
    else findupFuel has name fuel p.parent

theorem findupFuel_abs_terminates (fs : List (List String)) (name : String) :
    ∀ (n : Nat) (cs : List String), cs.length < n →
      findupFuel (pyHas fs) name n (PyPath.abs cs) =
        some ((findup name fs cs).map PyPath.abs) := by
  intro n
  induction n with
  | zero =>
    intro cs h
    exact absurd h (Nat.not_lt_zero _)
  | succ n ih =>
    intro cs hn
    by_cases hp : cs = []
    · subst hp
      simp [findupFuel, findup, findup_go, PyPath.str_is_root]
    · have hroot : (PyPath.abs cs).str_is_root = false := by
        cases cs with
        | nil => exact absurd rfl hp
        | cons c cs' => rfl
      have hfind : findup name fs cs = findup_go name fs (n + 1) cs :=
        (findup_go_fuel_irrel name fs (n + 1) (cs.length + 1) cs hn
          (Nat.lt_succ_self _)).symm
      by_cases hh : dirHasFile fs cs name = true
      · rw [hfind]
        simp [findupFuel, findup_go, hroot, pyHas, hh, hp]
      · have hdl : cs.dropLast.length < n := by
          have hpos : 0 < cs.length := List.length_pos.mpr hp
          rw [List.length_dropLast]
          omega
        have hstep : findup_go name fs (n + 1) cs =
            findup_go name fs n cs.dropLast := by
          simp [findup_go, hp, hh]
        have hfind2 : findup name fs cs = findup name fs cs.dropLast := by
          rw [hfind, hstep]
          exact findup_go_fuel_irrel name fs n (cs.dropLast.length + 1)
            cs.dropLast hdl (Nat.lt_succ_self _)
        have hfuel : findupFuel (pyHas fs) name (n + 1) (PyPath.abs cs) =
            findupFuel (pyHas fs) name n (PyPath.abs cs.dropLast) := by
          simp [findupFuel, hroot, pyHas, hh, PyPath.parent]
        rw [hfind2, hfuel]
        exact ih cs.dropLast hdl

theorem rel_parent (cs : List String) :
    (PyPath.rel cs).parent = PyPath.rel cs.dropLast := rfl

theorem findupFuel_rel_diverges (has : PyPath → String → Bool) (name : String)
    (hnever : ∀ p, has p name = false) :
    ∀ (n : Nat) (cs : List String),
      findupFuel has name n (PyPath.rel cs) = Option.none := by
  intro n
  induction n with
  | zero =>
    intro cs
    rfl
  | succ n ih =>
    intro cs
    have hroot : (PyPath.rel cs).str_is_root = false := rfl
    simp only [findupFuel, hroot, Bool.false_eq_true, if_false,
      hnever, rel_parent]
    exact ih cs.dropLast

/-! ### File enumeration (`find_files`, lines 91-108)

A directory tree is embedded as the list of its regular files' paths
relative to the enumeration root, each a non-empty component list whose
last element is the file's base name (`Path.rglob('*')` joined to the root
and filtered by `is_file()`).  For a file `f`,
`[p.name for p in f.parents]` is, as a set, the anchor's empty name `""`
together with the root's own components and the components of `f` above its
base name; `ignore_dir not in ...` is whole-name list membership. -/

/-- The names of the ancestors of root-joined file `f`
(`[p.name for p in f.parents]`, order irrelevant for membership). -/
def parent_names (rootComps f : List String) : List String :=
  "" :: (rootComps ++ f.dropLast)

/-- `find_files` (lines 91-108): `none` arguments are the Python `None`
defaults, replaced by `[]` and `['.git']`; then one `filter` pass per
ignored directory name and one per ignored file name. -/
def find_files (rootComps : List String) (tree : List (List String))
    (ignore_files : Option (List String)) (ignore_dirs : Option (List String)) :
    List (List String) :=
  let ig_files := match ignore_files with
    | some l => l
    | Option.none => []
  let ig_dirs := match ignore_dirs with
    | some l => l
    | Option.none => [".git"]
  let files1 := ig_dirs.foldl
    (fun fs d => fs.filter (fun f => !(parent_names rootComps f).contains d)) tree
  ig_files.foldl
    (fun fs n => fs.filter (fun f => f.getLastD "" != n)) files1

theorem mem_foldl_filter {α β : Type} (g : β → α → Bool) :
    ∀ (l : List β) (xs : List α) (x : α),
      x ∈ l.foldl (fun fs d => fs.filter (g d)) xs ↔
        x ∈ xs ∧ ∀ d ∈ l, g d x = true := by
  intro l
  induction l with
  | nil =>
    intro xs x
    simp
  | cons a l ih =>
    intro xs x
    simp only [List.foldl_cons]
    rw [ih]
    simp only [List.mem_filter, List.mem_cons]
    constructor
    · rintro ⟨⟨hx, ha⟩, hrest⟩
      exact ⟨hx, fun d hd => hd.elim (fun he => he ▸ ha) (hrest d)⟩
    · rintro ⟨hx, hall⟩
      exact ⟨⟨hx, hall a (Or.inl rfl)⟩, fun d hd => hall d (Or.inr hd)⟩

theorem mem_find_files (rootComps : List String) (tree : List (List String))
    (igf igd : List String) (f : List String) :
    f ∈ find_files rootComps tree (some igf) (some igd) ↔
      f ∈ tree ∧ (∀ d ∈ igd, d ∉ parent_names rootComps f) ∧
        ∀ n ∈ igf, f.getLastD "" ≠ n := by
  unfold find_files
  rw [mem_foldl_filter, mem_foldl_filter]
  simp [and_assoc]

/-! ### Content hashing (`get_file_hashes`, lines 122-131)

`hashlib.md5` is modelled by a full implementation of MD5 over byte lists
(RFC 1321): padding, little-endian word assembly, the 64-round compression
and the little-endian hex digest.  A directory is embedded as a list of
(relative path components, raw content bytes) pairs; `open(f, 'rb')` /
`fp.read()` is lookup of those bytes, applied unencoded, so empty and
binary files go through the very same path as text files. -/

/-- Per-round left-rotation amounts of MD5. -/
def md5_s : List Nat :=
  [7, 12, 17, 22, 7, 12, 17, 22, 7, 12, 17, 22, 7, 12, 17, 22,
   5, 9, 14, 20, 5, 9, 14, 20, 5, 9, 14, 20, 5, 9, 14, 20,
   4, 11, 16, 23, 4, 11, 16, 23, 4, 11, 16, 23, 4, 11, 16, 23,
   6, 10, 15, 21, 6, 10, 15, 21, 6, 10, 15, 21, 6, 10, 15, 21]

/-- MD5 round constants `floor(2^32 * abs(sin(i + 1)))`. -/
def md5_K : List Nat :=
  [3614090360, 3905402710, 606105819, 3250441966, 4118548399, 1200080426, 2821735955, 4249261313,
   1770035416, 2336552879, 4294925233, 2304563134, 1804603682, 4254626195, 2792965006, 1236535329,
   4129170786, 3225465664, 643717713, 3921069994, 3593408605, 38016083, 3634488961, 3889429448,
   568446438, 3275163606, 4107603335, 1163531501, 2850285829, 4243563512, 1735328473, 2368359562,
   4294588738, 2272392833, 1839030562, 4259657740, 2763975236, 1272893353, 4139469664, 3200236656,
   681279174, 3936430074, 3572445317, 76029189, 3654602809, 3873151461, 530742520, 3299628645,
   4096336452, 1126891415, 2878612391, 4237533241, 1700485571, 2399980690, 4293915773, 2240044497,
   1873313359, 4264355552, 2734768916, 1309151649, 4149444226, 3174756917, 718787259, 3951481745]

/-- Bitwise complement on 32-bit words represented as `Nat`. -/
def not32 (x : Nat) : Nat := 4294967295 - x % 4294967296

/-- 32-bit left rotation. -/
def rotl32 (x s : Nat) : Nat :=
  let t := x % 4294967296 * 2 ^ s
  t / 4294967296 + t % 4294967296

/-- The `numBytes` little-endian bytes of `x`. -/
def leBytes (numBytes x : Nat) : List Nat :=
  (List.range numBytes).map (fun i => x / 256 ^ i % 256)

/-- A little-endian 32-bit word from up to four bytes. -/
def leWord (bs : List Nat) : Nat :=
  bs.foldr (fun b acc => b % 256 + 256 * acc) 0

/-- MD5 padding: a `0x80` byte, zeros to 56 mod 64, then the 64-bit
little-endian bit length. -/
def md5_pad (msg : List Nat) : List Nat :=
  let z := (56 + 64 - (msg.length + 1) % 64) % 64
  msg ++ [128] ++ List.replicate z 0 ++ leBytes 8 (msg.length * 8)

/-- One of the 64 MD5 rounds on state `(A, B, C, D)`. -/
def md5_step (M : List Nat) (st : Nat × Nat × Nat × Nat) (i : Nat) :
    Nat × Nat × Nat × Nat :=
  let A := st.1
  let B := st.2.1
  let C := st.2.2.1
  let D := st.2.2.2
  let f :=
    if i < 16 then B &&& C ||| not32 B &&& D
    else if i < 32 then D &&& B ||| not32 D &&& C
    else if i < 48 then B ^^^ C ^^^ D
    else C ^^^ (B ||| not32 D)
  let g :=
    if i < 16 then i
    else if i < 32 then (5 * i + 1) % 16
    else if i < 48 then (3 * i + 5) % 16
    else 7 * i % 16
  let f2 := (f + A + md5_K.getD i 0 + M.getD g 0) % 4294967296
  (D, (B + rotl32 f2 (md5_s.getD i 0)) % 4294967296, B, C)

/-- MD5 compression of one 64-byte chunk. -/
def md5_chunk (st : Nat × Nat × Nat × Nat) (chunk : List Nat) :
    Nat × Nat × Nat × Nat :=
  let M := (List.range 16).map (fun j => leWord ((chunk.drop (4 * j)).take 4))
  let r := (List.range 64).foldl (md5_step M) st
  ((st.1 + r.1) % 4294967296, (st.2.1 + r.2.1) % 4294967296,
   (st.2.2.1 + r.2.2.1) % 4294967296, (st.2.2.2 + r.2.2.2) % 4294967296)

/-- The four MD5 state words after processing the padded message. -/
def md5_digest (msg : List Nat) : Nat × Nat × Nat × Nat :=
  let padded := md5_pad msg
  (List.range (padded.length / 64)).foldl
    (fun st i => md5_chunk st ((padded.drop (64 * i)).take 64))
    (1732584193, 4023233417, 2562383102, 271733878)

/-- A lowercase hex digit. -/
def hexDigit (n : Nat) : Char :=
  if n < 10 then Char.ofNat (48 + n) else Char.ofNat (87 + n)

/-- Two lowercase hex digits of a byte. -/
def byteHex (b : Nat) : String :=
  String.mk [hexDigit (b / 16 % 16), hexDigit (b % 16)]

/-- The eight hex digits of a 32-bit word, little-endian byte order. -/
def wordLEHex (w : Nat) : String :=
  byteHex (w % 256) ++ byteHex (w / 256 % 256) ++
    byteHex (w / 65536 % 256) ++ byteHex (w / 16777216 % 256)

/-- `md5(data).hexdigest()` on raw bytes. -/
def md5_hexdigest (msg : List Nat) : String :=
  let d := md5_digest msg
  wordLEHex d.1 ++ wordLEHex d.2.1 ++ wordLEHex d.2.2.1 ++ wordLEHex d.2.2.2

/-- A directory tree with contents: each entry is a regular file's path
components relative to the tree root, paired with its raw bytes. -/
abbrev FileTree := List (List String × List Nat)

/-- `get_file_hashes` (lines 122-131): enumerate with `find_files` under its
defaults, read each file's raw bytes, and key its MD5 hex digest by the
root-relative path rendered with forward slashes (`relpath.as_posix()`).
`dirComps` are the components of the `directory` argument itself, which
`relative_to(directory)` strips off again. -/
def get_file_hashes (dirComps : List String) (tree : FileTree) : HashDict :=
  (find_files dirComps (tree.map Prod.fst) Option.none Option.none).filterMap
    (fun f => (alookup f tree).map
      (fun bytes => (String.intercalate "/" f, md5_hexdigest bytes)))

/-! ### Multi-remote push (`push`, lines 191-218)

`push` loops over the target names in order; for each target it raises
`RuntimeError` when the name is not a configured remote, computes
`Path('.').resolve().relative_to(str(root))` — which raises `ValueError`
when the current directory is not under the project root — and otherwise
invokes one `rsync` command whose destination is the remote base joined
with that relative directory plus a trailing separator.  An uncaught
exception ends the loop at once; commands already issued stay issued. -/

/-- A failure inside `push`'s loop: `RuntimeError` for an unknown remote
name, `ValueError` from `relative_to` for a cwd outside the root. -/
inductive PushErr
  | unknownRemote (target : String)
  | pathError (target : String)
deriving DecidableEq

/-- `Path(p).relative_to(str(root))` on component lists: strips `root` off
the front of `p`, raising (`none`) when `root` is not a prefix of `p`. -/
def relative_to (p root : List String) : Option (List String) :=
  if root.isPrefixOf p then some (p.drop root.length) else Option.none

/-- `str(Path(base) / rel) + os.sep`, the rsync destination for one target. -/
def remote_path_str (base : String) (rel : List String) : String :=
  String.intercalate "/" (base :: rel) ++ "/"

/-- What `push`'s loop body produces for one target: the destination of the
`rsync` command it issues, or the exception it raises. -/
def push_one (remotes : List (String × String)) (rootComps cwdComps : List String)
    (target : String) : Except PushErr String :=
  match alookup target remotes with
  | Option.none => .error (.unknownRemote target)
  | some base =>
    match relative_to cwdComps rootComps with
    | Option.none => .error (.pathError target)
    | some rel => .ok (remote_path_str base rel)

/-- The `for target in targets:` loop of `push` (lines 197-218): issues one
sync command per target until the first raised exception, which aborts the
loop; `issued` accumulates the destinations already handed to `rsync`. -/
def push_go (remotes : List (String × String)) (rootComps cwdComps : List String) :
    List String → List String → List String × Option PushErr
  | [], issued => (issued, Option.none)
  | target :: rest, issued =>
    match push_one remotes rootComps cwdComps target with
    | .error e => (issued, some e)
    | .ok cmd => push_go remotes rootComps cwdComps rest (issued ++ [cmd])

/-- The `targets == ['all']` expansion at the top of `push` (lines 194-195). -/
def push_targets (targets : List String) (remotes : List (String × String)) :
    List String :=
  if targets = ["all"] then remotes.map Prod.fst else targets

/-- `push` (lines 191-218), abstracted to the sequence of issued sync
destinations and the exception that ended the loop, if any. -/
def push_run (targets : List String) (remotes : List (String × String))
    (rootComps cwdComps : List String) : List String × Option PushErr :=
  push_go remotes rootComps cwdComps (push_targets targets remotes) []

/-- Whether `push_one` succeeds for a target (decidable, used to split the
target list into the executed prefix and the abandoned suffix). -/
def push_ok (remotes : List (String × String)) (rootComps cwdComps : List String)
    (target : String) : Bool :=
  match push_one remotes rootComps cwdComps target with
  | .ok _ => true
  | .error _ => false

/-- The destination issued for a succeeding target (`""` never occurs for
targets with `push_ok`). -/
def push_cmd_of (remotes : List (String × String)) (rootComps cwdComps : List String)
    (target : String) : String :=
  match push_one remotes rootComps cwdComps target with
  | .ok cmd => cmd
  | .error _ => ""

/-- The exception raised for a failing target (defaulting for `push_ok`
targets, where it is never used). -/
def push_err_of (remotes : List (String × String)) (rootComps cwdComps : List String)
    (target : String) : PushErr :=
  match push_one remotes rootComps cwdComps target with
  | .ok _ => .unknownRemote target
  | .error e => e

theorem push_go_characterization (remotes : List (String × String))
    (rootComps cwdComps : List String) :
    ∀ (targets issued : List String),
      push_go remotes rootComps cwdComps targets issued =
        (issued ++ (targets.takeWhile (push_ok remotes rootComps cwdComps)).map
          (push_cmd_of remotes rootComps cwdComps),
         match targets.dropWhile (push_ok remotes rootComps cwdComps) with
         | [] => Option.none
         | t :: _ => some (push_err_of remotes rootComps cwdComps t)) := by
  intro targets
  induction targets with
  | nil =>
    intro issued
    simp [push_go]
  | cons t rest ih =>
    intro issued
    cases hone : push_one remotes rootComps cwdComps t with
    | error e =>
      have hok : push_ok remotes rootComps cwdComps t = false := by
        unfold push_ok
        rw [hone]
      simp only [push_go, hone, List.takeWhile_cons, List.dropWhile_cons, hok,
        Bool.false_eq_true, if_false, List.map_nil, List.append_nil]
      unfold push_err_of
      rw [hone]
    | ok cmd =>
      have hok : push_ok remotes rootComps cwdComps t = true := by
        unfold push_ok
        rw [hone]
      have hcmd : push_cmd_of remotes rootComps cwdComps t = cmd := by
        unfold push_cmd_of
        rw [hone]
      simp only [push_go, hone, List.takeWhile_cons, List.dropWhile_cons, hok,
        if_true, List.map_cons, hcmd]
      rw [ih]
      simp

/-! ### Scratch directories (`show_diff` lines 153-162, `main` lines 370-384)

The archive pre-processing step of `show_diff` extracts changed members
into `Path('/tmp') / "path1"` and `Path('/tmp') / "path2"` — string
literals, the same on every invocation — and contains no removal call.  The
remote-snapshot staging of `diff --copy` uses
`tempfile.TemporaryDirectory()`, whose context manager exits (and removes
the directory) on every path out of the block: a clean return, the
diff-found `SystemExit` raised by `sys.exit(1)` inside `show_diff`, and any
error raised by the block's other calls. -/

/-- The scratch directories `show_diff` creates for gzip snapshots (first
component) and the ones it removes (second component): creation uses the
fixed names `/tmp/path1` / `/tmp/path2` depending on which compared root is
a `.gz` file, and nothing is ever removed. -/
def show_diff_scratch (path1_is_gz path2_is_gz : Bool) :
    List String × List String :=
  ((if path1_is_gz then ["/tmp/path1"] else []) ++
   (if path2_is_gz then ["/tmp/path2"] else []), [])

/-- How a `diff --copy` run leaves the `with tempfile.TemporaryDirectory()`
block of `main`: a clean return, the diff-found `SystemExit` raised by
`sys.exit(1)` inside `show_diff`, or an error raised by anything else in
the block (a failing subprocess wrapper, `get_file_hashes`, the per-file
diff rendering). -/
inductive DiffOutcome
  | cleanRun
  | diffFound
  | error
deriving DecidableEq

/-- Modelled from the spec (the `tempfile` library is not part of this
repository): `TemporaryDirectory()` draws a directory name that collides
with no directory already in use — `used` lists every existing directory
name, including any scratch directory left behind by an earlier
invocation.  The model realizes freshness by picking a `/tmp/tmp…` name
strictly longer than every used name. -/
def fresh_staging_dir (used : List String) : String :=
  "/tmp/tmp" ++ String.mk (List.replicate ((used.map String.length).sum + 1) 'x')

/-- Modelled from the spec: the staging block of `diff --copy` creates the
fresh staging directory on entry, and the context manager removes it
however the block exits — clean return, diff-found `SystemExit`, or error.
First component: directories created; second: directories removed. -/
def diff_copy_staging (used : List String) (outcome : DiffOutcome) :
    List String × List String :=
  match outcome with
  | .cleanRun => ([fresh_staging_dir used], [fresh_staging_dir used])
  | .diffFound => ([fresh_staging_dir used], [fresh_staging_dir used])
  | .error => ([fresh_staging_dir used], [fresh_staging_dir used])

theorem fresh_staging_dir_not_used (used : List String) :
    fresh_staging_dir used ∉ used := by
  intro hmem
  have hle : (fresh_staging_dir used).length ≤ (used.map String.length).sum :=
    List.single_le_sum (fun y _ => Nat.zero_le y) _
      (List.mem_map_of_mem String.length hmem)
  have hlen : (fresh_staging_dir used).length =
      "/tmp/tmp".length + ((used.map String.length).sum + 1) := by
    simp [fresh_staging_dir]
  omega

/-! ### Shared membership characterizations of the diff groups -/

theorem mem_dictionary_item_added (t1 t2 : HashDict) (k : String) :
    k ∈ dictionary_item_added t1 t2 ↔ k ∈ dkeys t2 ∧ k ∉ dkeys t1 := by
  unfold dictionary_item_added
  rw [List.mem_filter]
  constructor
  · rintro ⟨h1, h2⟩
    exact ⟨h1, (alookup_isNone k t1).mp h2⟩
  · rintro ⟨h1, h2⟩
    exact ⟨h1, (alookup_isNone k t1).mpr h2⟩

theorem mem_dictionary_item_removed (t1 t2 : HashDict) (k : String) :
    k ∈ dictionary_item_removed t1 t2 ↔ k ∈ dkeys t1 ∧ k ∉ dkeys t2 := by
  unfold dictionary_item_removed
  rw [List.mem_filter]
  constructor
  · rintro ⟨h1, h2⟩
    exact ⟨h1, (alookup_isNone k t2).mp h2⟩
  · rintro ⟨h1, h2⟩
    exact ⟨h1, (alookup_isNone k t2).mpr h2⟩

theorem mem_values_changed (t1 t2 : HashDict) (k : String) :
    k ∈ values_changed t1 t2 ↔
      ∃ v w, alookup k t1 = some v ∧ alookup k t2 = some w ∧ v ≠ w := by
  unfold values_changed
  rw [List.mem_filter]
  constructor
  · rintro ⟨h1, h2⟩
    cases ho : alookup k t1 with
    | none =>
      rw [ho] at h2
      simp at h2
    | some v =>
      cases hn : alookup k t2 with
      | none =>
        rw [ho, hn] at h2
        simp at h2
      | some w =>
        rw [ho, hn] at h2
        refine ⟨v, w, rfl, rfl, ?_⟩
        simpa using h2
  · rintro ⟨v, w, ho, hn, hvw⟩
    refine ⟨(alookup_isSome k t1).mp (by rw [ho]; rfl), ?_⟩
    rw [ho, hn]
    simpa using hvw

theorem show_diff_clean_iff (t1 t2 : HashDict) :
    show_diff t1 t2 = ([OutLine.clean], Option.none) ↔
      dictionary_item_added t1 t2 = [] ∧ dictionary_item_removed t1 t2 = []
        ∧ values_changed t1 t2 = [] := by
  constructor
  · intro h
    by_cases hc : diff_is_clean t1 t2 = true
    · unfold diff_is_clean at hc
      simp only [Bool.and_eq_true, List.isEmpty_iff] at hc
      exact ⟨hc.1.1, hc.1.2, hc.2⟩
    · exfalso
      unfold show_diff at h
      rw [if_neg hc] at h
      have h2 := congrArg Prod.snd h
      simp at h2
  · rintro ⟨h1, h2, h3⟩
    have hc : diff_is_clean t1 t2 = true := by
      unfold diff_is_clean
      simp [h1, h2, h3]
    unfold show_diff
    rw [if_pos hc]

/-! ### Claim theorems -/

/-- C1: for every pair of hash maps (old, new), the diff classification of
`show_diff` computes added = keys(new) - keys(old), removed =
keys(old) - keys(new), and changed = the keys present in both maps whose
values differ; and the report is announced clean (only the confirmation
line, normal return) exactly when all three sets are empty. -/
theorem diff_classification_spec (old new : HashDict) (k : String) :
    (k ∈ dictionary_item_added old new ↔ k ∈ dkeys new ∧ k ∉ dkeys old)
  ∧ (k ∈ dictionary_item_removed old new ↔ k ∈ dkeys old ∧ k ∉ dkeys new)
  ∧ (k ∈ values_changed old new ↔
      ∃ v w, alookup k old = some v ∧ alookup k new = some w ∧ v ≠ w)
  ∧ (show_diff old new = ([OutLine.clean], Option.none) ↔
      dictionary_item_added old new = [] ∧ dictionary_item_removed old new = []
        ∧ values_changed old new = []) :=
  ⟨mem_dictionary_item_added old new k, mem_dictionary_item_removed old new k,
   mem_values_changed old new k, show_diff_clean_iff old new⟩

/-- C1 witness: the added-set characterization at a concrete pair of maps. -/
theorem diff_classification_spec_witness :
    "b" ∈ dictionary_item_added [("a", "1")] [("a", "1"), ("b", "2")] ↔
      "b" ∈ dkeys [("a", "1"), ("b", "2")] ∧ "b" ∉ dkeys [("a", "1")] :=
  (diff_classification_spec [("a", "1")] [("a", "1"), ("b", "2")] "b").1

/-- C2 as stated is false: with old = new = {"a": "h"} the key "a" lies in
keys(old) ∪ keys(new) but in none of the three diff sets (it is present in
both maps with equal values), so the union of the three sets is not
keys(old) ∪ keys(new). -/
theorem diff_partition_union_cex :
    "a" ∈ dkeys [("a", "h")]
  ∧ "a" ∉ dictionary_item_added [("a", "h")] [("a", "h")]
  ∧ "a" ∉ dictionary_item_removed [("a", "h")] [("a", "h")]
  ∧ "a" ∉ values_changed [("a", "h")] [("a", "h")] := by decide

/-- C2 amended: the three diff sets are pairwise disjoint, and their union
is keys(old) ∪ keys(new) minus the keys present in both maps with equal
values — equivalently, the keys at which the two maps' lookups differ. -/
theorem diff_partition_spec (old new : HashDict) (k : String) :
    ¬(k ∈ dictionary_item_added old new ∧ k ∈ dictionary_item_removed old new)
  ∧ ¬(k ∈ dictionary_item_added old new ∧ k ∈ values_changed old new)
  ∧ ¬(k ∈ dictionary_item_removed old new ∧ k ∈ values_changed old new)
  ∧ ((k ∈ dictionary_item_added old new ∨ k ∈ dictionary_item_removed old new
        ∨ k ∈ values_changed old new) ↔
      (k ∈ dkeys old ∨ k ∈ dkeys new) ∧ alookup k old ≠ alookup k new) := by
  have ha := mem_dictionary_item_added old new k
  have hr := mem_dictionary_item_removed old new k
  have hc := mem_values_changed old new k
  cases ho : alookup k old with
  | none =>
    have hmo : k ∉ dkeys old := by
      rw [← alookup_isSome]
      simp [ho]
    cases hn : alookup k new with
    | none =>
      have hmn : k ∉ dkeys new := by
        rw [← alookup_isSome]
        simp [hn]
      refine ⟨?_, ?_, ?_, ?_⟩ <;> simp [ha, hr, hc, ho, hn, hmo, hmn]
    | some w =>
      have hmn : k ∈ dkeys new := by
        rw [← alookup_isSome]
        simp [hn]
      refine ⟨?_, ?_, ?_, ?_⟩ <;> simp [ha, hr, hc, ho, hn, hmo, hmn]
  | some v =>
    have hmo : k ∈ dkeys old := by
      rw [← alookup_isSome]
      simp [ho]
    cases hn : alookup k new with
    | none =>
      have hmn : k ∉ dkeys new := by
        rw [← alookup_isSome]
        simp [hn]
      refine ⟨?_, ?_, ?_, ?_⟩ <;> simp [ha, hr, hc, ho, hn, hmo, hmn]
    | some w =>
      have hmn : k ∈ dkeys new := by
        rw [← alookup_isSome]
        simp [hn]
      refine ⟨?_, ?_, ?_, ?_⟩ <;> simp [ha, hr, hc, ho, hn, hmo, hmn]

/-- C3 as stated is false: `findup` never examines the filesystem root.
With the filesystem holding exactly the file `/m.yaml` and the search
starting at `/home`, the root `/` is an ancestor directory directly
containing the file, yet `findup` returns `None`. -/
theorem findup_root_cex :
    dirHasFile [["m.yaml"]] [] "m.yaml" = true
  ∧ findup "m.yaml" [["m.yaml"]] ["home"] = Option.none := by decide

/-- C3 amended: `findup` returns the nearest ancestor strictly below the
filesystem root (the starting directory included; `/` itself is never
examined) that directly contains a regular file with the configured name,
and `None` exactly when no such non-root ancestor does.  Ancestors are the
non-empty prefixes of the starting path, so sibling and descendant
directories are never consulted, and `dirHasFile` inspects only the regular
files directly inside a directory. -/
theorem findup_spec (name : String) (fs : List (List String))
    (start p : List String) :
    (findup name fs start = some p →
      (∃ k, 0 < k ∧ k ≤ start.length ∧ p = start.take k) ∧
      dirHasFile fs p name = true ∧
      (∀ m, p.length < m → m ≤ start.length →
        dirHasFile fs (start.take m) name = false))
  ∧ (findup name fs start = Option.none →
      ∀ m, 0 < m → m ≤ start.length →
        dirHasFile fs (start.take m) name = false) := by
  have h := findup_go_spec name fs (start.length + 1) start (Nat.lt_succ_self _)
  exact ⟨fun hp => h.1 p hp, h.2⟩

/-- C3 witness: searching for `m` from `/a/b` over the filesystem
`{/a/m}` returns `/a`, the nearest ancestor holding the file. -/
theorem findup_spec_witness :
    (∃ k, 0 < k ∧ k ≤ (["a", "b"] : List String).length ∧
      (["a"] : List String) = (["a", "b"] : List String).take k)
  ∧ dirHasFile [["a", "m"]] ["a"] "m" = true
  ∧ (∀ m, (["a"] : List String).length < m →
      m ≤ (["a", "b"] : List String).length →
      dirHasFile [["a", "m"]] ((["a", "b"] : List String).take m) "m" = false) :=
  (findup_spec "m" [["a", "m"]] ["a", "b"] ["a"]).1 (by decide)

/-- C10: the `findup` loop terminates on every absolute starting path —
with fuel exceeding the component count it finishes and agrees with
`findup`, whose ancestor chain shrinks to `/` — while from a relative path
(whose `.parent` chain never reaches `/`) the loop runs forever when the
name is nowhere found, so the termination argument rests on the starting
path being absolute. -/
theorem findup_terminates (name : String) (fs : List (List String)) :
    (∀ (cs : List String) (n : Nat), cs.length < n →
      findupFuel (pyHas fs) name n (PyPath.abs cs) =
        some ((findup name fs cs).map PyPath.abs))
  ∧ (∀ (has : PyPath → String → Bool), (∀ p, has p name = false) →
      ∀ (n : Nat) (cs : List String),
        findupFuel has name n (PyPath.rel cs) = Option.none) :=
  ⟨fun cs n h => findupFuel_abs_terminates fs name n cs h,
   fun has hnever n cs => findupFuel_rel_diverges has name hnever n cs⟩

/-- C10 witness: termination from the absolute `/a` and divergence from the
relative `a`, at concrete fuel. -/
theorem findup_terminates_witness :
    findupFuel (pyHas [["m"]]) "m" 2 (PyPath.abs ["a"]) =
      some ((findup "m" [["m"]] ["a"]).map PyPath.abs)
  ∧ findupFuel (fun _ _ => false) "m" 5 (PyPath.rel ["a"]) = Option.none :=
  ⟨(findup_terminates "m" [["m"]]).1 ["a"] 2 (by decide),
   (findup_terminates "m" [["m"]]).2 (fun _ _ => false) (fun _ => rfl) 5 ["a"]⟩

/-- C4: `find_files` keeps exactly the regular files none of whose ancestor
directory names equals (whole-name, not substring) an `ignore_dirs` entry
and whose base name equals no `ignore_files` entry; and omitted arguments
default to exactly `['.git']` / `[]`, wholesale-replaced — not added to —
by any caller-supplied lists. -/
theorem find_files_spec (rootComps : List String) (tree : List (List String))
    (igf igd : List String) (f : List String) :
    (f ∈ find_files rootComps tree (some igf) (some igd) ↔
      f ∈ tree ∧ (∀ d ∈ igd, d ∉ parent_names rootComps f) ∧
        ∀ n ∈ igf, f.getLastD "" ≠ n)
  ∧ find_files rootComps tree Option.none Option.none =
      find_files rootComps tree (some []) (some [".git"]) :=
  ⟨mem_find_files rootComps tree igf igd f, rfl⟩

/-- C4 witness: the membership characterization at a one-file tree. -/
theorem find_files_spec_witness :
    ((["a"] : List String) ∈ find_files [] [["a"]] (some []) (some [".git"]) ↔
      (["a"] : List String) ∈ [["a"]] ∧
        (∀ d ∈ ([".git"] : List String), d ∉ parent_names [] ["a"]) ∧
        ∀ n ∈ ([] : List String), (["a"] : List String).getLastD "" ≠ n)
  ∧ find_files [] [["a"]] Option.none Option.none =
      find_files [] [["a"]] (some []) (some [".git"]) :=
  find_files_spec [] [["a"]] [] [".git"] ["a"]

set_option maxRecDepth 100000 in
/-- C5: every enumerated file contributes the entry (relative path with
forward slashes, MD5 hex digest of its raw bytes), every entry of the map
arises that way, and the singleton directory `a.txt` = "hello" yields
exactly one entry with the canonical MD5 digest of the bytes "hello". -/
theorem get_file_hashes_spec (dirComps : List String) (tree : FileTree)
    (f : List String) (bytes : List Nat)
    (hread : alookup f tree = some bytes)
    (hkeep : f ∈ find_files dirComps (tree.map Prod.fst) Option.none Option.none) :
    (String.intercalate "/" f, md5_hexdigest bytes) ∈ get_file_hashes dirComps tree
  ∧ (∀ kv ∈ get_file_hashes dirComps tree, ∃ g gbytes,
      g ∈ find_files dirComps (tree.map Prod.fst) Option.none Option.none ∧
      alookup g tree = some gbytes ∧
      kv = (String.intercalate "/" g, md5_hexdigest gbytes))
  ∧ get_file_hashes [] [(["a.txt"], [104, 101, 108, 108, 111])] =
      [("a.txt", "5d41402abc4b2a76b9719d911017c592")] := by
  refine ⟨?_, ?_, ?_⟩
  · unfold get_file_hashes
    rw [List.mem_filterMap]
    refine ⟨f, hkeep, ?_⟩
    rw [hread]
    rfl
  · intro kv hkv
    unfold get_file_hashes at hkv
    rw [List.mem_filterMap] at hkv
    obtain ⟨g, hg, hmap⟩ := hkv
    cases hr : alookup g tree with
    | none =>
      rw [hr] at hmap
      simp at hmap
    | some gbytes =>
      rw [hr] at hmap
      simp only [Option.map_some'] at hmap
      exact ⟨g, gbytes, hg, hr, (Option.some.inj hmap).symm⟩
  · decide

/-- C5 witness: the hello scenario's entry arises from the general part. -/
theorem get_file_hashes_spec_witness :
    (String.intercalate "/" ["a.txt"],
      md5_hexdigest [104, 101, 108, 108, 111]) ∈
        get_file_hashes [] [(["a.txt"], [104, 101, 108, 108, 111])] :=
  (get_file_hashes_spec [] [(["a.txt"], [104, 101, 108, 108, 111])] ["a.txt"]
    [104, 101, 108, 108, 111] (by decide) (by decide)).1

/-- C6: whenever the diff report is not clean, the process outcome is exit
code 1 — distinct from success — reached by `sys.exit(1)` after the
classified groups are printed (the confirmation line is not among them);
whenever it is clean, the process exits 0 and only the confirmation line is
printed. -/
theorem show_diff_exit_spec (old new : HashDict) :
    (diff_process_exit old new = 0 ↔ diff_is_clean old new = true)
  ∧ (diff_process_exit old new = 1 ↔ diff_is_clean old new = false)
  ∧ (diff_is_clean old new = true → (show_diff old new).1 = [OutLine.clean])
  ∧ (diff_is_clean old new = false →
      (show_diff old new).2 = some 1 ∧ OutLine.clean ∉ (show_diff old new).1) := by
  by_cases hc : diff_is_clean old new = true
  · refine ⟨?_, ?_, ?_, ?_⟩ <;> simp [diff_process_exit, show_diff, hc]
  · have hc' : diff_is_clean old new = false := Bool.eq_false_iff.mpr hc
    refine ⟨?_, ?_, ?_, ?_⟩
    · simp [diff_process_exit, show_diff, hc']
    · simp [diff_process_exit, show_diff, hc']
    · intro h
      rw [h] at hc'
      cases hc'
    · intro _
      refine ⟨by simp [show_diff, hc'], ?_⟩
      simp only [show_diff, hc', Bool.false_eq_true, if_false]
      intro hmem
      rcases List.mem_append.mp hmem with h12 | h3
      · rcases List.mem_append.mp h12 with h1 | h2
        · revert h1
          split
          · simp
          · simp
        · revert h2
          split
          · simp
          · simp
      · revert h3
        split
        · simp
        · simp

/-- C6 witness: the clean output at equal maps and the exit-1-with-printed-
groups behaviour at differing maps. -/
theorem show_diff_exit_spec_witness :
    ((show_diff [] []).1 = [OutLine.clean])
  ∧ ((show_diff [("a", "1")] [("a", "2")]).2 = some 1
      ∧ OutLine.clean ∉ (show_diff [("a", "1")] [("a", "2")]).1) :=
  ⟨(show_diff_exit_spec [] []).2.2.1 (by decide),
   (show_diff_exit_spec [("a", "1")] [("a", "2")]).2.2.2 (by decide)⟩

/-- C7: after `Config.update`, a dataclass field holds the CLI/file-dict
value exactly when that value is present and truthy (non-empty collection
or string, set boolean); a field whose incoming value is absent or falsy
keeps the configuration's previous value unchanged. -/
theorem Config.update_spec (self in_dict : List (String × PyVal)) (k : String)
    (hk : k ∈ config_fields) (hkeys : dkeys self = config_fields) :
    alookup k (Config.update self in_dict) =
      match alookup k in_dict with
      | some v => if v.truthy = true then some v else alookup k self
      | Option.none => alookup k self := by
  unfold Config.update
  rw [alookup_foldl_update, if_pos hk]
  have hsome : (alookup k self).isSome = true := by
    rw [alookup_isSome, hkeys]
    exact hk
  obtain ⟨w, hw⟩ := Option.isSome_iff_exists.mp hsome
  unfold cli_override
  cases h : alookup k in_dict with
  | none => rfl
  | some v =>
    by_cases ht : v.truthy
    · simp [ht, hw]
    · simp [ht]

/-- C7 witness: a truthy CLI `mode` overrides the default configuration. -/
theorem Config.update_spec_witness :
    alookup "mode" (Config.update config_default [("mode", PyVal.str "push")]) =
      match alookup "mode" [("mode", PyVal.str "push")] with
      | some v => if v.truthy = true then some v else alookup "mode" config_default
      | Option.none => alookup "mode" config_default :=
  Config.update_spec config_default [("mode", PyVal.str "push")] "mode"
    (by decide) (by decide)

/-- C8 as stated is false: with configured remotes `{good: /g}` and target
list `[bad, good]`, the unknown remote `bad` raises `RuntimeError` and the
loop aborts before issuing the sync command for the valid remote `good` —
the orchestrator does not proceed to the next remote. -/
theorem push_abort_cex :
    push_run ["bad", "good"] [("good", "/g")] [] [] =
      ([], some (PushErr.unknownRemote "bad")) := by decide

/-- C8 amended: `push` issues sync commands, in order, for exactly the
longest prefix of the target list on which the per-remote computation
succeeds; the first failing target's exception ends the loop, leaving the
already-issued transfers intact but skipping every later target, valid or
not. -/
theorem push_run_spec (targets : List String) (remotes : List (String × String))
    (rootComps cwdComps : List String) :
    push_run targets remotes rootComps cwdComps =
      (((push_targets targets remotes).takeWhile
          (push_ok remotes rootComps cwdComps)).map
        (push_cmd_of remotes rootComps cwdComps),
       match (push_targets targets remotes).dropWhile
          (push_ok remotes rootComps cwdComps) with
       | [] => Option.none
       | t :: _ => some (push_err_of remotes rootComps cwdComps t)) := by
  unfold push_run
  rw [push_go_characterization]
  simp

/-- C9 as stated is false: when both compared roots are gzip snapshots,
`show_diff` creates its extraction scratch directories under the fixed
names `/tmp/path1` and `/tmp/path2` — identical on every invocation, hence
not collision-free — and removes neither on any exit path. -/
theorem scratch_dirs_cex :
    (show_diff_scratch true true).1 = ["/tmp/path1", "/tmp/path2"]
  ∧ (show_diff_scratch true true).2 = [] := by decide

/-- C9 amended: only the remote-snapshot staging directory of `diff --copy`
is created with a unique, collision-free name — fresh against every
directory already in use, in particular against any scratch directory a
previous invocation left behind — and removed on every exit path of its
block: clean return, diff-found `SystemExit`, and error alike.  The
archive-extraction scratch directories are the fixed constants `/tmp/path1`
and `/tmp/path2` whenever the respective root is a gzip file, and
`show_diff` never removes them. -/
theorem scratch_dirs_spec (gz1 gz2 : Bool) (used : List String) (o : DiffOutcome) :
    (show_diff_scratch gz1 gz2).1 =
      (if gz1 then ["/tmp/path1"] else []) ++ (if gz2 then ["/tmp/path2"] else [])
  ∧ (show_diff_scratch gz1 gz2).2 = []
  ∧ diff_copy_staging used o = ([fresh_staging_dir used], [fresh_staging_dir used])
  ∧ fresh_staging_dir used ∉ used := by
  refine ⟨rfl, rfl, ?_, fresh_staging_dir_not_used used⟩
  cases o with
  | cleanRun => rfl
  | diffFound => rfl
  | error => rfl
